import Mathlib

/-!
Verification of the label-transfer core of `Single-Cell-Fuzzy-Labels`
(`src/Single_Cell_Fuzzy_Labels/transfer.py` and
`src/Single_Cell_Fuzzy_Labels/Harmonisation.py`).

Embedding conventions:
- Embedding vectors are `List ℚ`; distances and vote weights are exact
  rationals (the Python code uses floats; every claim checked here is
  structural, and the float literal `1e-6` is modelled as the exact
  rational `1/1000000`).
- Python dicts and `collections.Counter` are insertion-ordered
  (a CPython >= 3.7 language guarantee); they are modelled as association
  lists whose key order is first-occurrence order, with in-place updates.
- `Counter.most_common(1)[0][0]` is `max(items, key=snd)` via
  `heapq.nlargest(1, ...)`, and Python `max`/`min` keep the FIRST element
  attaining the optimum, replacing the running optimum only on a strict
  improvement.  They are modelled by folds that replace only on `<`.
- FAISS flat search returns, per query row, the k best reference rows
  sorted by squared L2 distance ascending (metric L2) or inner product
  descending (metric IP); the order among exact ties is unspecified in
  FAISS, and the model resolves ties toward the smaller reference index.
- `assign_labels_by_nearest_centroid` compares `np.linalg.norm` values;
  the model compares squared distances, which orders every pair of
  distances identically (square root is strictly monotone), so argmin and
  its tie set are unchanged.
- Python exception paths that the code can reach (IndexError on an empty
  neighbour row, ValueError from `max()`/`min()` of an empty sequence,
  ValueError from `range(start, stop, 0)`) are modelled either as
  `Except.error` (in `labels`) or as sentinel strings of the shape
  `<...Error>` that no genuine label equals.
- `use_gpu` and `timed` are orthogonal to every claim (the spec requires
  acceleration not to change results, and `timed` only adds a wall-clock
  duration), so `labels` is modelled without them, on its `timed=False`
  return path.
-/

deriving instance DecidableEq for Except

namespace SCFL

/-- `np.zeros d`. -/
def zerosVec (d : Nat) : List ℚ := List.replicate d 0

/-- Elementwise numpy addition of two vectors of equal length
(`zipWith` truncation is unreachable under the uniform-dimension
hypotheses of the theorems that use it). -/
def vadd (u v : List ℚ) : List ℚ := List.zipWith (fun a b => a + b) u v

/-- Squared Euclidean distance, the quantity FAISS `IndexFlatL2` reports. -/
def sqDist (u v : List ℚ) : ℚ := ((u.zip v).map (fun p => (p.1 - p.2) * (p.1 - p.2))).sum

/-- Inner product, the quantity FAISS `IndexFlatIP` reports. -/
def ipVal (u v : List ℚ) : ℚ := ((u.zip v).map (fun p => p.1 * p.2)).sum

/-- Python `max(assoc, key=assoc.get)` over an insertion-ordered dict:
first key attaining the maximal value wins (Python `max` replaces the
running maximum only on a strict increase).  `max` of an empty sequence
raises ValueError, modelled by a sentinel. -/
def pyArgmaxSnd {M : Type} [LinearOrder M] : List (String × M) → String
  | [] => "<ValueError>"
  | p :: ps => (ps.foldl (fun best q => if best.2 < q.2 then q else best) p).1

/-- Python `min(l, key=key)`: first element attaining the minimal key. -/
def pyMinBy {α : Type} (key : α → ℚ) : List α → Option α
  | [] => none
  | x :: xs => some (xs.foldl (fun best y => if key y < key best then y else best) x)

/-- One Python dict update `d[k] = add (d.get k) v` (or `d[k] = init v`
for an absent key), preserving insertion order. -/
def bumpKV {M : Type} (add : M → M → M) (init : M → M)
    (acc : List (String × M)) (kv : String × M) : List (String × M) :=
  if acc.any (fun p => p.1 = kv.1) then
    acc.map (fun p => if p.1 = kv.1 then (p.1, add p.2 kv.2) else p)
  else acc ++ [(kv.1, init kv.2)]

/-- Accumulate key/value pairs into an insertion-ordered dict. -/
def accKV {M : Type} (add : M → M → M) (init : M → M)
    (l : List (String × M)) : List (String × M) :=
  l.foldl (bumpKV add init) []

/-- `collections.Counter(l)`: insertion-ordered counts. -/
def counter (l : List String) : List (String × Nat) :=
  accKV (fun a b => a + b) (fun b => b) (l.map (fun s => (s, 1)))

/-- `Counter.most_common(1)[0][0]`: CPython implements `most_common(1)`
as `heapq.nlargest(1, items, key=snd)`, whose `n == 1` short-cut is
`max(items, key=snd)`; `[0]` on the empty result raises IndexError. -/
def mostCommon1 (cs : List (String × Nat)) : String :=
  match cs with
  | [] => "<IndexError>"
  | p :: ps => pyArgmaxSnd (p :: ps)

/-- `reference_labels[i]` for a FAISS index (always non-negative);
an out-of-range access raises IndexError, modelled by a sentinel. -/
def pyLabelGet (refLabels : List String) (i : Nat) : String :=
  refLabels.getD i "<IndexError>"

/-- Body of the `knn_majority_voting` loop for one query point. -/
def rowMajority (refLabels : List String) (ind : List Nat) : String :=
  mostCommon1 (counter (ind.map (pyLabelGet refLabels)))

/-- `knn_majority_voting` (transfer.py lines 10-22). -/
def knn_majority_voting (indices : List (List Nat)) (reference_labels : List String) : List String :=
  indices.map (rowMajority reference_labels)

/-- The small constant `1e-6` of `knn_weighted_voting`. -/
def eps : ℚ := 1 / 1000000

/-- The `(label, weight)` stream of the inner `knn_weighted_voting` loop:
`zip(ind, dist)` with weight `1 / (d + 1e-6)`. -/
def weightPairs (refLabels : List String) (ind : List Nat) (dist : List ℚ) : List (String × ℚ) :=
  (ind.zip dist).map (fun p => (pyLabelGet refLabels p.1, 1 / (p.2 + eps)))

/-- Body of the `knn_weighted_voting` loop for one query point:
`weighted_votes[label] = weighted_votes.get(label, 0) + weight`, then
`max(weighted_votes, key=weighted_votes.get)`. -/
def rowWeighted (refLabels : List String) (ind : List Nat) (dist : List ℚ) : String :=
  pyArgmaxSnd (accKV (fun a b => a + b) (fun b => b) (weightPairs refLabels ind dist))

/-- `knn_weighted_voting` (transfer.py lines 30-46). -/
def knn_weighted_voting (indices : List (List Nat)) (distances : List (List ℚ))
    (reference_labels : List String) : List String :=
  (indices.zip distances).map (fun p => rowWeighted reference_labels p.1 p.2)

/-- Dict lookup with default (`defaultdict` read access / `dict.get`). -/
def assocFindD {M : Type} (a : List (String × M)) (k : String) (dflt : M) : M :=
  match a.find? (fun p => p.1 = k) with
  | some p => p.2
  | none => dflt

/-- `calculate_centroids` (transfer.py lines 54-76): `label_sums` is a
`defaultdict` of `np.zeros(len(reference_data[0]))` accumulated over
`zip(reference_data, reference_labels)`; `label_counts` is
`Counter(reference_labels)`; the result maps each label (in Counter
order) to `label_sums[label] / count`. -/
def calculate_centroids (reference_data : List (List ℚ)) (reference_labels : List String) :
    List (String × List ℚ) :=
  let d0 := (reference_data.headD []).length
  let label_sums := accKV vadd (fun v => vadd (zerosVec d0) v)
      ((reference_data.zip reference_labels).map (fun p => (p.2, p.1)))
  let label_counts := counter reference_labels
  label_counts.map (fun p =>
    (p.1, (assocFindD label_sums p.1 (zerosVec d0)).map (fun x => x / (p.2 : ℚ))))

/-- Body of the `assign_labels_by_nearest_centroid` loop:
`min(centroids.keys(), key=lambda label: norm(data - centroids[label]))`,
modelled with squared distances (same order, same ties as norms). -/
def nearestCentroidRow (centroids : List (String × List ℚ)) (data : List ℚ) : String :=
  match pyMinBy (fun p => sqDist data p.2) centroids with
  | some p => p.1
  | none => "<ValueError>"

/-- `assign_labels_by_nearest_centroid` (transfer.py lines 80-102). -/
def assign_labels_by_nearest_centroid (query_data : List (List ℚ))
    (centroids : List (String × List ℚ)) : List String :=
  query_data.map (nearestCentroidRow centroids)

/-- Search ordering key: L2 ranks by distance ascending, IP by inner
product descending (FAISS returns the LARGEST inner products). -/
def searchKey (metric : String) (p : Nat × ℚ) : ℚ :=
  if metric = "IP" then -p.2 else p.2

/-- All reference rows scored against one query vector, index order. -/
def scored (metric : String) (ref : List (List ℚ)) (q : List ℚ) : List (Nat × ℚ) :=
  ref.enum.map (fun p => (p.1, if metric = "IP" then ipVal p.2 q else sqDist p.2 q))

/-- Select the k best scored rows, best first, ties toward the smaller
index (FAISS leaves tie order unspecified; this is the model's choice).
If fewer than k rows exist the result just ends early. -/
def selectK (metric : String) : Nat → List (Nat × ℚ) → List (Nat × ℚ)
  | 0, _ => []
  | k + 1, xs =>
    match pyMinBy (searchKey metric) xs with
    | none => []
    | some m => m :: selectK metric k (xs.erase m)

/-- One row of `index.search(batch, k)`: the k nearest reference rows of
one query vector, as (index, reported distance) pairs. -/
def searchRow (metric : String) (ref : List (List ℚ)) (q : List ℚ) (k : Nat) : List (Nat × ℚ) :=
  selectK metric k (scored metric ref q)

/-- Body of the fallback branch `[reference_labels[i[0]] for i in indices]`
for one row (`i[0]` of an empty row raises IndexError). -/
def fallbackRow (refLabels : List String) (ind : List Nat) : String :=
  match ind.head? with
  | some i => pyLabelGet refLabels i
  | none => "<IndexError>"

/-- The label the batch loop of `labels` assigns to a single query point,
given the branch structure of transfer.py lines 145-154. -/
def pointLabel (ref : List (List ℚ)) (refLabels : List String) (k : Nat)
    (metric consensus : String) (centroids : List (String × List ℚ)) (q : List ℚ) : String :=
  let row := searchRow metric ref q k
  if 1 < k ∧ consensus = "majority_voting" then rowMajority refLabels (row.map Prod.fst)
  else if 1 < k ∧ consensus = "weighted_voting" then
    rowWeighted refLabels (row.map Prod.fst) (row.map Prod.snd)
  else if consensus = "centroid_based" then nearestCentroidRow centroids q
  else fallbackRow refLabels (row.map Prod.fst)

/-- One iteration of the batch loop of `labels` (transfer.py lines
142-154): search the batch, then dispatch on `k` and `label_consensus`.
The centroid map is passed in, computed once from the reference set only
(the code computes it in the first iteration and reuses it, so its value
is batch-independent). -/
def processBatch (ref : List (List ℚ)) (refLabels : List String) (k : Nat)
    (metric consensus : String) (centroids : List (String × List ℚ))
    (batch : List (List ℚ)) : List String :=
  let results := batch.map (fun q => searchRow metric ref q k)
  let indices := results.map (fun r => r.map Prod.fst)
  let distances := results.map (fun r => r.map Prod.snd)
  if 1 < k ∧ consensus = "majority_voting" then knn_majority_voting indices refLabels
  else if 1 < k ∧ consensus = "weighted_voting" then
    knn_weighted_voting indices distances refLabels
  else if consensus = "centroid_based" then assign_labels_by_nearest_centroid batch centroids
  else indices.map (fallbackRow refLabels)

/-- Structural helper for `chunkMap`: the fuel is an upper bound on the
list length, so the fuel-exhaustion branch is unreachable when called
with `fuel = l.length` (each step drops at least one element and
decreases the fuel by exactly one). -/
def chunkMapF {α β : Type} (f : List α → List β) (bs : Nat) : Nat → List α → List β
  | _, [] => []
  | 0, _ :: _ => []
  | fuel + 1, x :: xs => f ((x :: xs).take bs) ++ chunkMapF f bs fuel (xs.drop (bs - 1))

/-- `for i in range(0, n, bs): out.extend(f(query[i:i+bs]))`, for `bs >= 1`
(for `bs >= 1`, `drop (bs-1) xs = drop bs (x :: xs)`, so this matches the
contiguous slicing of the Python loop). -/
def chunkMap {α β : Type} (f : List α → List β) (bs : Nat) (l : List α) : List β :=
  chunkMapF f bs l.length l

/-- `batch_size = batch_size or num_query_points`: `None` and `0` are
falsy (negative batch sizes are outside this model). -/
def effBS : Option Nat → Nat → Nat
  | none, n => n
  | some 0, n => n
  | some (b + 1), _ => b + 1

/-- `labels` (transfer.py lines 108-161), on its `timed=False` return
path and with `use_gpu` elided (acceleration must not change results).
The metric is validated first; then `range(0, n, 0)` — reached exactly
when the query set is empty and `batch_size` is falsy — raises
ValueError; otherwise the query set is processed in contiguous batches. -/
def labels (embedding_array_reference : List (List ℚ)) (embedding_array_query : List (List ℚ))
    (reference_labels : List String) (k : Nat) (batch_size : Option Nat)
    (distance_metric : String) (label_consensus : String) : Except String (List String) :=
  if distance_metric = "L2" ∨ distance_metric = "IP" then
    let num_query_points := embedding_array_query.length
    let bs := effBS batch_size num_query_points
    if bs = 0 then Except.error "range() arg 3 must not be zero"
    else
      let centroids := calculate_centroids embedding_array_reference reference_labels
      Except.ok (chunkMap
        (processBatch embedding_array_reference reference_labels k
          distance_metric label_consensus centroids)
        bs embedding_array_query)
  else Except.error "Invalid distance metric. Choose L2 or IP."

/-- `map_labels_to_categories` dict assignment `d[k] = v`. -/
def dictSet (a : List (String × String)) (k v : String) : List (String × String) :=
  if a.any (fun p => p.1 = k) then a.map (fun p => if p.1 = k then (p.1, v) else p)
  else a ++ [(k, v)]

/-- `map_labels_to_categories` (Harmonisation.py lines 57-77), with every
dictionary value a list of labels (the code also accepts a bare label
`v`, which it treats exactly like `[v]`). -/
def map_labels_to_categories (label_list : List String)
    (label_dict : List (String × List String)) : List String :=
  let label_to_category :=
    label_dict.foldl (fun acc p => p.2.foldl (fun a l => dictSet a l p.1) acc) []
  label_list.map (fun l => assocFindD label_to_category l "unknown")

/-! ## Spec-side definitions

The following definitions render sentences of the specification, for
comparison against the code-side definitions above. -/

/-- Spec side: the label of the single nearest reference neighbour of a
query point (nearest = minimal search key; among exact ties the smallest
index, matching the model's search tie-break). -/
def nnLabel (metric : String) (ref : List (List ℚ)) (refLabels : List String) (q : List ℚ) : String :=
  match pyMinBy (searchKey metric) (scored metric ref q) with
  | some p => pyLabelGet refLabels p.1
  | none => "<IndexError>"

/-- The distinct values of a list, in first-occurrence order. -/
def firstKeys (l : List String) : List String :=
  l.foldl (fun acc x => if x ∈ acc then acc else acc ++ [x]) []

/-- Spec side (claim C4, amended reading): the most frequent neighbour
label; among labels tied for the maximal count, the one whose first
occurrence in nearest-first neighbour order is earliest. -/
def specMajority (neighborLabels : List String) : String :=
  match (firstKeys neighborLabels).map (fun k => (k, neighborLabels.count k)) with
  | [] => "<IndexError>"
  | p :: ps => pyArgmaxSnd (p :: ps)

/-- Spec side (claim C4, literal reading): the first label whose running
tally reaches the maximal count while scanning the neighbours in
nearest-first order. -/
def maxFreq (l : List String) : Nat :=
  (l.map (fun x => l.count x)).foldr max 0

/-- See `maxFreq`: the first label reaching the maximum count in
neighbour order. -/
def firstToReachMax (l : List String) : String :=
  match (List.range l.length).find?
      (fun i => (l.take (i + 1)).count (l.getD i "") = maxFreq l) with
  | some i => l.getD i ""
  | none => "<IndexError>"

/-- Spec side (claim C5): per label, the total weight
`sum of 1 / (distance + 1e-6)` over its neighbours; the winner is the
label with the highest total, ties toward the first-encountered label in
nearest-first order. -/
def specWeighted (refLabels : List String) (ind : List Nat) (dist : List ℚ) : String :=
  let pairs := weightPairs refLabels ind dist
  match (firstKeys (pairs.map Prod.fst)).map
      (fun k => (k, ((pairs.filter (fun p => p.1 = k)).map Prod.snd).sum)) with
  | [] => "<ValueError>"
  | p :: ps => pyArgmaxSnd (p :: ps)

/-- The reference vectors carrying a given label, in reference order. -/
def membersOf (data : List (List ℚ)) (lbls : List String) (l : String) : List (List ℚ) :=
  ((data.zip lbls).filter (fun p => p.2 = l)).map Prod.fst

/-- Spec side (claim C7): the element-wise arithmetic mean of a set of
vectors of dimension d. -/
def centroidMean (d : Nat) (ms : List (List ℚ)) : List ℚ :=
  (ms.foldl vadd (zerosVec d)).map (fun x => x / (ms.length : ℚ))

/-- Spec side (claim C9): the category whose value list contains the
label, else the sentinel "unknown". -/
def specCategoryOf (label_dict : List (String × List String)) (l : String) : String :=
  match label_dict.find? (fun p => l ∈ p.2) with
  | some p => p.1
  | none => "unknown"

/-- The value an `accKV` dict holds at key k: the fold of `add` over the
values paired with k in stream order, seeded through `init`; `init dflt`
is junk for keys that never occur. -/
def accVal {M : Type} (add : M → M → M) (init : M → M) (dflt : M) (k : String)
    (l : List (String × M)) : M :=
  match (l.filter (fun p => p.1 = k)).map Prod.snd with
  | [] => init dflt
  | v :: vs => vs.foldl add (init v)

/-! ## Claim theorems: error handling and batching edge cases -/

/-- C8: for every call to `labels` with a `distance_metric` other than
"L2" or "IP", an InvalidConfiguration error (the ValueError of
transfer.py line 137) is raised, whatever the reference set, query set,
labels, k, batch size and consensus are — in particular before any
search result or label is produced. -/
theorem C8_invalid_metric (ref query : List (List ℚ)) (refLabels : List String)
    (k : Nat) (bs : Option Nat) (metric consensus : String)
    (h1 : metric ≠ "L2") (h2 : metric ≠ "IP") :
    labels ref query refLabels k bs metric consensus =
      Except.error "Invalid distance metric. Choose L2 or IP." := by
  unfold labels
  rw [if_neg]
  rintro (h | h)
  · exact h1 h
  · exact h2 h

/-- Witness for C8 at the spec's concrete scenario: metric "COSINE". -/
theorem C8_invalid_metric_witness :
    labels [[(0:ℚ),0],[10,10]] [[1,1]] ["T","B"] 1 none "COSINE" "majority_voting" =
      Except.error "Invalid distance metric. Choose L2 or IP." :=
  C8_invalid_metric _ _ _ _ _ _ _ (by decide) (by decide)

/-- C10: `batch_size = 0` is falsy, so it is replaced by the number of
query points exactly as `batch_size = None` is; the two calls coincide on
every input (including the error cases). -/
theorem C10_zero_batch_eq_none (ref query : List (List ℚ)) (refLabels : List String)
    (k : Nat) (metric consensus : String) :
    labels ref query refLabels k (some 0) metric consensus =
      labels ref query refLabels k none metric consensus := rfl

/-- C3, code evaluated at the failing input: with a non-empty reference
set, an EMPTY query set and the default `batch_size = None`,
`batch_size or num_query_points` yields 0 and `range(0, 0, 0)` raises
ValueError, so `labels` returns no label sequence at all — the spec
demands an empty output of length 0 here. -/
theorem C3_empty_query_default_batch_raises :
    labels [[(0:ℚ)]] [] ["T"] 1 none "L2" "majority_voting" =
      Except.error "range() arg 3 must not be zero" := rfl

/-- C6, counterexample: for an empty query set (N = 0), `batch_size = N`
is falsy and raises ValueError, while `batch_size = 1` returns the empty
label sequence; so "batch_size = N produces identical output to
batch_size = 1 for every reference set and query set of size N" is false
at N = 0. -/
theorem C6_counterexample_empty_query :
    labels [[(0:ℚ)]] [] ["T"] 1 (some 0) "L2" "majority_voting" =
        Except.error "range() arg 3 must not be zero" ∧
      labels [[(0:ℚ)]] [] ["T"] 1 (some 1) "L2" "majority_voting" = Except.ok [] ∧
      (Except.error "range() arg 3 must not be zero" : Except String (List String)) ≠
        Except.ok [] :=
  ⟨rfl, rfl, by simp⟩

/-- C2, counterexample: with k = 2 and the unrecognized consensus string
"bogus", `labels` raises nothing and returns a label sequence — it
silently falls back to the single-nearest-neighbour branch of
transfer.py line 154 (no consensus validation exists in the code). -/
theorem C2_counterexample_silent_fallback :
    labels [[(0:ℚ)],[10]] [[1]] ["T","B"] 2 none "L2" "bogus" = Except.ok ["T"] := by
  norm_num +decide [labels, effBS, chunkMap, chunkMapF, processBatch, searchRow, selectK, scored,
    searchKey, sqDist, pyMinBy, fallbackRow, pyLabelGet, List.enum, List.enumFrom]

/-- C1, counterexample: at k = 1 the `centroid_based` branch of
transfer.py line 149 still runs nearest-centroid classification, which
can disagree with the single nearest neighbour.  Reference: "A" at 0,
"A" at 10, "B" at 3 (1-dimensional); query 1.  The nearest reference
point is "A" at 0, and indeed `majority_voting` at k = 1 returns "A",
but the centroid of "A" is 5, so `centroid_based` returns "B". -/
theorem C1_counterexample_centroid :
    labels [[(0:ℚ)],[10],[3]] [[1]] ["A","A","B"] 1 none "L2" "centroid_based" =
        Except.ok ["B"] ∧
      nnLabel "L2" [[(0:ℚ)],[10],[3]] ["A","A","B"] [1] = "A" ∧
      labels [[(0:ℚ)],[10],[3]] [[1]] ["A","A","B"] 1 none "L2" "majority_voting" =
        Except.ok ["A"] ∧
      ("B" : String) ≠ "A" := by
  refine ⟨?_, ?_, ?_, by decide⟩ <;>
  norm_num +decide [labels, effBS, chunkMap, chunkMapF, processBatch, searchRow, selectK, scored,
    searchKey, sqDist, pyMinBy, fallbackRow, pyLabelGet, nnLabel, List.enum, List.enumFrom,
    calculate_centroids, counter, accKV, bumpKV, vadd, zerosVec, assocFindD,
    assign_labels_by_nearest_centroid, nearestCentroidRow, knn_majority_voting, rowMajority,
    mostCommon1, pyArgmaxSnd, List.find?, List.erase]

/-- C4, counterexample: for the neighbour labels [A, B, B, A] (nearest
first), A and B tie at the maximal count 2.  The first label REACHING
that count in neighbour order is B (at the third neighbour), which is
what the claim's tie-break predicts; but `knn_majority_voting` returns A:
CPython's insertion-ordered `Counter` lists A first (first occurrence)
and `most_common(1)` keeps the first key attaining the maximum. -/
theorem C4_counterexample_tiebreak :
    knn_majority_voting [[0,1,2,3]] ["A","B","B","A"] = ["A"] ∧
      firstToReachMax ["A","B","B","A"] = "B" ∧
      (["A"] : List String) ≠ ["B"] :=
  ⟨rfl, rfl, by decide⟩

/-! ## Insertion-ordered dict lemmas

`accKV` (the model of Python dict accumulation) lists its keys in
first-occurrence order and holds, at each key, the fold of the values
paired with that key in stream order. -/

theorem firstKeys_foldl_mem (l : List String) :
    ∀ (acc : List String) (y : String),
      (y ∈ l.foldl (fun acc x => if x ∈ acc then acc else acc ++ [x]) acc) ↔
        (y ∈ acc ∨ y ∈ l) := by
  induction l with
  | nil => simp
  | cons x xs ih =>
    intro acc y
    simp only [List.foldl_cons]
    rw [ih]
    by_cases hx : x ∈ acc
    · simp only [if_pos hx, List.mem_cons]
      constructor
      · tauto
      · rintro (h | rfl | h) <;> tauto
    · simp only [if_neg hx, List.mem_append, List.mem_singleton, List.mem_cons]
      tauto

theorem mem_firstKeys (y : String) (l : List String) : y ∈ firstKeys l ↔ y ∈ l := by
  unfold firstKeys
  rw [firstKeys_foldl_mem]
  simp

theorem firstKeys_append_singleton (l : List String) (x : String) :
    firstKeys (l ++ [x]) = if x ∈ l then firstKeys l else firstKeys l ++ [x] := by
  have h1 : firstKeys (l ++ [x]) =
      if x ∈ firstKeys l then firstKeys l else firstKeys l ++ [x] := by
    unfold firstKeys
    rw [List.foldl_append]
    rfl
  rw [h1]
  simp [mem_firstKeys]

theorem accVal_append_ne {M : Type} (add : M → M → M) (init : M → M) (dflt : M)
    (k : String) (p : List (String × M)) (kv : String × M) (h : kv.1 ≠ k) :
    accVal add init dflt k (p ++ [kv]) = accVal add init dflt k p := by
  unfold accVal
  rw [List.filter_append]
  have h2 : List.filter (fun q => (q.1 = k : Bool)) [kv] = [] := by
    simp [h]
  rw [h2, List.append_nil]

theorem filter_key_ne_nil {M : Type} (k : String) (p : List (String × M))
    (h : k ∈ p.map Prod.fst) :
    (p.filter (fun q => (q.1 = k : Bool))).map Prod.snd ≠ [] := by
  obtain ⟨q, hq, hq1⟩ := List.mem_map.mp h
  have : q ∈ p.filter (fun q => (q.1 = k : Bool)) := by
    rw [List.mem_filter]
    exact ⟨hq, by simp [hq1]⟩
  intro hcon
  rcases hf : p.filter (fun q => (q.1 = k : Bool)) with _ | ⟨a, b⟩
  · rw [hf] at this; exact absurd this (List.not_mem_nil q)
  · rw [hf] at hcon; simp at hcon

theorem accVal_append_self {M : Type} (add : M → M → M) (init : M → M) (dflt : M)
    (p : List (String × M)) (kv : String × M) (h : kv.1 ∈ p.map Prod.fst) :
    accVal add init dflt kv.1 (p ++ [kv]) = add (accVal add init dflt kv.1 p) kv.2 := by
  unfold accVal
  rw [List.filter_append]
  have h1 : List.filter (fun q => (q.1 = kv.1 : Bool)) [kv] = [kv] := by simp
  rw [h1, List.map_append]
  rcases hf : (p.filter (fun q => (q.1 = kv.1 : Bool))).map Prod.snd with _ | ⟨v, vs⟩
  · exact absurd hf (filter_key_ne_nil kv.1 p h)
  · rw [hf]
    simp [List.foldl_append]

theorem accVal_append_new {M : Type} (add : M → M → M) (init : M → M) (dflt : M)
    (p : List (String × M)) (kv : String × M) (h : kv.1 ∉ p.map Prod.fst) :
    accVal add init dflt kv.1 (p ++ [kv]) = init kv.2 := by
  unfold accVal
  rw [List.filter_append]
  have h0 : p.filter (fun q => (q.1 = kv.1 : Bool)) = [] := by
    rw [List.filter_eq_nil_iff]
    intro q hq
    simp only [decide_eq_true_eq]
    intro he
    exact h (List.mem_map.mpr ⟨q, hq, he⟩)
  have h1 : List.filter (fun q => (q.1 = kv.1 : Bool)) [kv] = [kv] := by simp
  rw [h0, h1, List.nil_append]
  rfl

theorem bumpKV_repr {M : Type} (add : M → M → M) (init : M → M) (dflt : M)
    (p : List (String × M)) (kv : String × M) :
    bumpKV add init
        ((firstKeys (p.map Prod.fst)).map (fun k => (k, accVal add init dflt k p))) kv
      = (firstKeys ((p ++ [kv]).map Prod.fst)).map
          (fun k => (k, accVal add init dflt k (p ++ [kv]))) := by
  have hkeys : (p ++ [kv]).map Prod.fst = p.map Prod.fst ++ [kv.1] := by
    simp
  rw [hkeys, firstKeys_append_singleton]
  by_cases hmem : kv.1 ∈ p.map Prod.fst
  · rw [if_pos hmem]
    unfold bumpKV
    have hany : ((firstKeys (p.map Prod.fst)).map
        (fun k => (k, accVal add init dflt k p))).any (fun q => (q.1 = kv.1 : Bool)) = true := by
      rw [List.any_eq_true]
      exact ⟨(kv.1, accVal add init dflt kv.1 p),
        List.mem_map.mpr ⟨kv.1, (mem_firstKeys _ _).mpr hmem, rfl⟩, by simp⟩
    rw [if_pos hany, List.map_map]
    apply List.map_congr_left
    intro k hk
    by_cases hkk : k = kv.1
    · subst hkk
      simp only [Function.comp_apply, eq_self_iff_true, if_true]
      rw [accVal_append_self add init dflt p kv hmem]
    · simp only [Function.comp_apply]
      rw [if_neg (by simp [hkk]), accVal_append_ne add init dflt k p kv (fun he => hkk he.symm)]
  · rw [if_neg hmem]
    unfold bumpKV
    have hany : ((firstKeys (p.map Prod.fst)).map
        (fun k => (k, accVal add init dflt k p))).any (fun q => (q.1 = kv.1 : Bool)) = false := by
      rw [List.any_eq_false]
      rintro q hq
      obtain ⟨k, hk, rfl⟩ := List.mem_map.mp hq
      simp only [decide_eq_true_eq]
      intro he
      exact hmem (by rw [← he]; exact (mem_firstKeys _ _).mp hk)
    rw [if_neg (by rw [hany]; exact Bool.false_ne_true), List.map_append]
    congr 1
    · apply List.map_congr_left
      intro k hk
      have hkk : kv.1 ≠ k := by
        intro he
        exact hmem (by rw [he]; exact (mem_firstKeys _ _).mp hk)
      rw [accVal_append_ne add init dflt k p kv hkk]
    · simp only [List.map_cons, List.map_nil]
      rw [accVal_append_new add init dflt p kv hmem]

theorem accKV_foldl {M : Type} (add : M → M → M) (init : M → M) (dflt : M)
    (l : List (String × M)) :
    ∀ (p : List (String × M)),
      l.foldl (bumpKV add init)
          ((firstKeys (p.map Prod.fst)).map (fun k => (k, accVal add init dflt k p)))
        = (firstKeys ((p ++ l).map Prod.fst)).map
            (fun k => (k, accVal add init dflt k (p ++ l))) := by
  induction l with
  | nil => intro p; simp
  | cons kv rest ih =>
    intro p
    simp only [List.foldl_cons]
    rw [bumpKV_repr add init dflt p kv, ih (p ++ [kv])]
    simp

theorem accKV_eq {M : Type} (add : M → M → M) (init : M → M) (dflt : M)
    (l : List (String × M)) :
    accKV add init l =
      (firstKeys (l.map Prod.fst)).map (fun k => (k, accVal add init dflt k l)) := by
  have h := accKV_foldl add init dflt l []
  simpa [accKV, firstKeys] using h

theorem counter_filter_ones (l : List String) (k : String) :
    ((l.map (fun s => (s, (1 : Nat)))).filter (fun p => (p.1 = k : Bool))).map Prod.snd =
      List.replicate (l.count k) 1 := by
  induction l with
  | nil => simp
  | cons s t ih =>
    by_cases h : s = k
    · subst h
      simp [List.count_cons, ih, List.replicate_succ]
    · simp [h, List.count_cons, ih]

theorem foldl_add_one_replicate (m : Nat) : ∀ (a : Nat),
    (List.replicate m (1 : Nat)).foldl (fun x y => x + y) a = a + m := by
  induction m with
  | zero => intro a; simp
  | succ n ih =>
    intro a
    rw [List.replicate_succ, List.foldl_cons, ih]
    omega

/-- `Counter(l)` is exactly: the distinct values of l in first-occurrence
order, each with its total count. -/
theorem counter_eq (l : List String) :
    counter l = (firstKeys l).map (fun k => (k, l.count k)) := by
  unfold counter
  rw [accKV_eq (fun a b => a + b) (fun b => b) 1]
  have hfst : (l.map (fun s => (s, (1 : Nat)))).map Prod.fst = l := by
    simp [Function.comp_def]
  rw [hfst]
  apply List.map_congr_left
  intro k hk
  have hk' : k ∈ l := (mem_firstKeys k l).mp hk
  have hval : accVal (fun a b => a + b) (fun b => b) 1 k (l.map (fun s => (s, 1))) = l.count k := by
    unfold accVal
    rw [counter_filter_ones]
    obtain ⟨m, hm⟩ : ∃ m, l.count k = m + 1 :=
      ⟨l.count k - 1, by have := List.count_pos_iff.mpr hk'; omega⟩
    rw [hm, List.replicate_succ]
    show (List.replicate m 1).foldl (fun x y => x + y) 1 = m + 1
    rw [foldl_add_one_replicate]
    omega
  rw [hval]

theorem rowMajority_eq_spec (refLabels : List String) (ind : List Nat) :
    rowMajority refLabels ind = specMajority (ind.map (pyLabelGet refLabels)) := by
  unfold rowMajority specMajority mostCommon1
  rw [counter_eq]

/-- C4 amended: majority voting returns the label with the highest count
among the neighbours; among tied labels the winner is the one whose FIRST
occurrence in nearest-first neighbour order is earliest (the insertion
order of CPython's Counter), deterministically. -/
theorem C4_amended_majority_first_occurrence (indices : List (List Nat))
    (reference_labels : List String) :
    knn_majority_voting indices reference_labels =
      indices.map (fun ind => specMajority (ind.map (pyLabelGet reference_labels))) := by
  unfold knn_majority_voting
  apply List.map_congr_left
  intro ind _
  exact rowMajority_eq_spec reference_labels ind

theorem foldl_add_rat (vs : List ℚ) : ∀ (a : ℚ),
    vs.foldl (fun x y => x + y) a = a + vs.sum := by
  induction vs with
  | nil => intro a; simp
  | cons v t ih =>
    intro a
    rw [List.foldl_cons, ih, List.sum_cons]
    ring

theorem rowWeighted_eq_spec (refLabels : List String) (ind : List Nat) (dist : List ℚ) :
    rowWeighted refLabels ind dist = specWeighted refLabels ind dist := by
  unfold rowWeighted specWeighted
  rw [accKV_eq (fun a b => a + b) (fun b => b) 0]
  have hcong : (firstKeys ((weightPairs refLabels ind dist).map Prod.fst)).map
      (fun k => (k, accVal (fun a b => a + b) (fun b => b) 0 k (weightPairs refLabels ind dist)))
    = (firstKeys ((weightPairs refLabels ind dist).map Prod.fst)).map
      (fun k => (k, (((weightPairs refLabels ind dist).filter
          (fun p => (p.1 = k : Bool))).map Prod.snd).sum)) := by
    apply List.map_congr_left
    intro k hk
    have hk' : k ∈ (weightPairs refLabels ind dist).map Prod.fst := (mem_firstKeys _ _).mp hk
    unfold accVal
    rcases hf : ((weightPairs refLabels ind dist).filter
        (fun p => (p.1 = k : Bool))).map Prod.snd with _ | ⟨v, vs⟩
    · exact absurd hf (filter_key_ne_nil k _ hk')
    · rw [hf]
      show (k, vs.foldl (fun a b => a + b) v) = (k, (v :: vs).sum)
      rw [foldl_add_rat, List.sum_cons]
  rw [hcong]
  rcases h : (firstKeys ((weightPairs refLabels ind dist).map Prod.fst)).map
      (fun k => (k, (((weightPairs refLabels ind dist).filter
          (fun p => (p.1 = k : Bool))).map Prod.snd).sum)) with _ | ⟨p, ps⟩ <;>
    simp [h, pyArgmaxSnd]

/-- C5: weighted voting adds, for each neighbour in nearest-first order,
a vote of weight 1 / (distance + 1e-6) to its label's running total and
returns the label with the highest total weight; on a tie of totals, the
first-encountered label in nearest-first neighbour order wins,
deterministically.  (The non-negativity hypothesis records that FAISS L2
distances are non-negative, so `distance + 1e-6` is never zero and the
Python division is total.) -/
theorem C5_weighted_voting (indices : List (List Nat)) (distances : List (List ℚ))
    (reference_labels : List String)
    (hnn : ∀ ds ∈ distances, ∀ d ∈ ds, 0 ≤ d) :
    knn_weighted_voting indices distances reference_labels =
      (indices.zip distances).map (fun p => specWeighted reference_labels p.1 p.2) := by
  simp only [knn_weighted_voting, rowWeighted_eq_spec]

/-- Witness for C5 at a concrete input. -/
theorem C5_weighted_voting_witness :
    knn_weighted_voting [[0, 1]] [[(0 : ℚ), 1]] ["A", "B"] =
      (([[0, 1]] : List (List Nat)).zip [[(0 : ℚ), 1]]).map
        (fun p => specWeighted ["A", "B"] p.1 p.2) := by
  apply C5_weighted_voting
  intro ds hds d hd
  simp only [List.mem_singleton] at hds
  subst hds
  rcases List.mem_cons.mp hd with rfl | hd2
  · norm_num
  · rcases List.mem_singleton.mp hd2 with rfl
    norm_num

/-! ## Batch-loop lemmas: every consensus branch is a per-point map -/

theorem chunkMapF_map {α β : Type} (g : α → β) (bs : Nat) (hbs : 1 ≤ bs) :
    ∀ (fuel : Nat) (l : List α), l.length ≤ fuel →
      chunkMapF (List.map g) bs fuel l = List.map g l := by
  intro fuel
  induction fuel with
  | zero =>
    intro l hl
    have hnil : l = [] := List.length_eq_zero.mp (Nat.le_zero.mp hl)
    subst hnil
    rfl
  | succ n ih =>
    intro l hl
    cases l with
    | nil => rfl
    | cons x xs =>
      show List.map g ((x :: xs).take bs) ++ chunkMapF (List.map g) bs n (xs.drop (bs - 1)) =
        List.map g (x :: xs)
      rw [ih (xs.drop (bs - 1)) (by
        simp only [List.length_drop]
        simp only [List.length_cons] at hl
        omega)]
      rw [← List.map_append]
      congr 1
      obtain ⟨b, rfl⟩ : ∃ b, bs = b + 1 := ⟨bs - 1, by omega⟩
      rw [List.take_succ_cons, Nat.add_sub_cancel, List.cons_append, List.take_append_drop]

theorem chunkMap_map {α β : Type} (g : α → β) (bs : Nat) (hbs : 1 ≤ bs) (l : List α) :
    chunkMap (List.map g) bs l = List.map g l :=
  chunkMapF_map g bs hbs l.length l le_rfl

theorem processBatch_eq_map (ref : List (List ℚ)) (refLabels : List String) (k : Nat)
    (metric consensus : String) (centroids : List (String × List ℚ))
    (batch : List (List ℚ)) :
    processBatch ref refLabels k metric consensus centroids batch =
      batch.map (pointLabel ref refLabels k metric consensus centroids) := by
  simp only [processBatch]
  by_cases h1 : 1 < k ∧ consensus = "majority_voting"
  · simp only [if_pos h1, knn_majority_voting, List.map_map]
    apply List.map_congr_left
    intro q _
    simp only [Function.comp_apply, pointLabel, if_pos h1]
  · by_cases h2 : 1 < k ∧ consensus = "weighted_voting"
    · simp only [if_neg h1, if_pos h2, knn_weighted_voting, List.map_map, List.zip_map',
        List.map_map]
      apply List.map_congr_left
      intro q _
      simp only [Function.comp_apply, pointLabel, if_neg h1, if_pos h2]
    · by_cases h3 : consensus = "centroid_based"
      · simp only [if_neg h1, if_neg h2, if_pos h3, assign_labels_by_nearest_centroid]
        apply List.map_congr_left
        intro q _
        simp only [pointLabel, if_neg h1, if_neg h2, if_pos h3]
      · simp only [if_neg h1, if_neg h2, if_neg h3, List.map_map]
        apply List.map_congr_left
        intro q _
        simp only [Function.comp_apply, pointLabel, if_neg h1, if_neg h2, if_neg h3]

/-- For a valid metric and a non-empty query set, `labels` succeeds and
equals the per-point map of `pointLabel`, for EVERY batch size: the
effective batch size is at least 1, and each branch of the batch loop
labels the batch pointwise. -/
theorem labels_ok_map (ref query : List (List ℚ)) (refLabels : List String) (k : Nat)
    (bs : Option Nat) (metric consensus : String)
    (hm : metric = "L2" ∨ metric = "IP") (hq : query ≠ []) :
    labels ref query refLabels k bs metric consensus =
      Except.ok (query.map (pointLabel ref refLabels k metric consensus
        (calculate_centroids ref refLabels))) := by
  have hlen : 1 ≤ query.length := by
    cases query with
    | nil => exact absurd rfl hq
    | cons a t => simp
  have hbs : 1 ≤ effBS bs query.length := by
    rcases bs with _ | b
    · exact hlen
    · cases b with
      | zero => exact hlen
      | succ m => simp [effBS]
  simp only [labels]
  rw [if_pos hm, if_neg (by omega : ¬ effBS bs query.length = 0)]
  congr 1
  have hpb : processBatch ref refLabels k metric consensus (calculate_centroids ref refLabels) =
      List.map (pointLabel ref refLabels k metric consensus (calculate_centroids ref refLabels)) :=
    funext (processBatch_eq_map ref refLabels k metric consensus
      (calculate_centroids ref refLabels))
  rw [hpb]
  exact chunkMap_map _ _ hbs query

/-- For `k >= 1`, the fallback branch applied to a search row is exactly
the label of the single nearest neighbour. -/
theorem fallback_searchRow (metric : String) (ref : List (List ℚ)) (refLabels : List String)
    (q : List ℚ) (k : Nat) (hk : 1 ≤ k) :
    fallbackRow refLabels ((searchRow metric ref q k).map Prod.fst) =
      nnLabel metric ref refLabels q := by
  obtain ⟨m, rfl⟩ : ∃ m, k = m + 1 := ⟨k - 1, by omega⟩
  unfold searchRow nnLabel
  cases h : pyMinBy (searchKey metric) (scored metric ref q) with
  | none => simp [selectK, h, fallbackRow]
  | some mm => simp [selectK, h, fallbackRow]

/-- C1 amended: at k = 1 with consensus `majority_voting` or
`weighted_voting` (and a valid metric and non-empty query set), the
output is the label of each query point's single nearest reference
neighbour, for every batch size; `centroid_based` is excluded because it
runs nearest-centroid classification regardless of k. -/
theorem C1_amended_k1_fallback (ref query : List (List ℚ)) (refLabels : List String)
    (bs : Option Nat) (metric consensus : String)
    (hm : metric = "L2" ∨ metric = "IP")
    (hc : consensus = "majority_voting" ∨ consensus = "weighted_voting")
    (hq : query ≠ []) :
    labels ref query refLabels 1 bs metric consensus =
      Except.ok (query.map (nnLabel metric ref refLabels)) := by
  rw [labels_ok_map ref query refLabels 1 bs metric consensus hm hq]
  congr 1
  apply List.map_congr_left
  intro q _
  unfold pointLabel
  have h1 : ¬ (1 < 1 ∧ consensus = "majority_voting") := by simp
  have h2 : ¬ (1 < 1 ∧ consensus = "weighted_voting") := by simp
  have h3 : consensus ≠ "centroid_based" := by
    rcases hc with rfl | rfl <;> decide
  rw [if_neg h1, if_neg h2, if_neg h3]
  exact fallback_searchRow metric ref refLabels q 1 le_rfl

/-- Witness for the amended C1 at a concrete input. -/
theorem C1_amended_k1_fallback_witness :
    labels [[(0:ℚ)],[10],[3]] [[1]] ["A","A","B"] 1 none "L2" "majority_voting" =
      Except.ok (([[(1:ℚ)]]).map (nnLabel "L2" [[(0:ℚ)],[10],[3]] ["A","A","B"])) :=
  C1_amended_k1_fallback _ _ _ _ _ _ (Or.inl rfl) (Or.inl rfl) (by simp)

/-- C2 amended: an unrecognized consensus identifier is never rejected;
for every k >= 1, valid metric and non-empty query set, `labels` silently
falls back to the single-nearest-neighbour assignment and returns a full
label sequence. -/
theorem C2_amended_silent_fallback (ref query : List (List ℚ)) (refLabels : List String)
    (k : Nat) (bs : Option Nat) (metric consensus : String)
    (hm : metric = "L2" ∨ metric = "IP")
    (hc1 : consensus ≠ "majority_voting") (hc2 : consensus ≠ "weighted_voting")
    (hc3 : consensus ≠ "centroid_based") (hk : 1 ≤ k) (hq : query ≠ []) :
    labels ref query refLabels k bs metric consensus =
      Except.ok (query.map (nnLabel metric ref refLabels)) := by
  rw [labels_ok_map ref query refLabels k bs metric consensus hm hq]
  congr 1
  apply List.map_congr_left
  intro q _
  unfold pointLabel
  rw [if_neg (fun h => hc1 h.2), if_neg (fun h => hc2 h.2), if_neg hc3]
  exact fallback_searchRow metric ref refLabels q k hk

/-- Witness for the amended C2 at the counterexample's concrete input. -/
theorem C2_amended_silent_fallback_witness :
    labels [[(0:ℚ)],[10]] [[1]] ["T","B"] 2 none "L2" "bogus" =
      Except.ok (([[(1:ℚ)]]).map (nnLabel "L2" [[(0:ℚ)],[10]] ["T","B"])) :=
  C2_amended_silent_fallback _ _ _ _ _ _ _ (Or.inl rfl) (by decide) (by decide) (by decide)
    (by omega) (by simp)

/-- C6 amended: for every NON-EMPTY query set of size N, every reference
set, every k, every metric and each of the three consensus strategies,
`labels` with `batch_size = N` equals `labels` with `batch_size = 1`:
both equal the same per-point map (the centroid map is computed from the
reference set only, so it is batch-invariant). -/
theorem C6_amended_batch_invariance (ref query : List (List ℚ)) (refLabels : List String)
    (k : Nat) (metric consensus : String)
    (hq : query ≠ [])
    (hc : consensus = "majority_voting" ∨ consensus = "weighted_voting" ∨
      consensus = "centroid_based") :
    labels ref query refLabels k (some query.length) metric consensus =
      labels ref query refLabels k (some 1) metric consensus := by
  by_cases hm : metric = "L2" ∨ metric = "IP"
  · rw [labels_ok_map ref query refLabels k (some query.length) metric consensus hm hq,
      labels_ok_map ref query refLabels k (some 1) metric consensus hm hq]
  · unfold labels
    rw [if_neg hm, if_neg hm]

/-- Witness for the amended C6 at a concrete input (N = 2, k = 2,
majority voting). -/
theorem C6_amended_batch_invariance_witness :
    labels [[(0:ℚ)],[10]] [[1],[9]] ["T","B"] 2 (some 2) "L2" "majority_voting" =
      labels [[(0:ℚ)],[10]] [[1],[9]] ["T","B"] 2 (some 1) "L2" "majority_voting" :=
  C6_amended_batch_invariance _ _ _ _ _ _ (by simp) (Or.inl rfl)

/-! ## Centroid lemmas (claim C7) -/

theorem find_map_key {M : Type} (f : String → M) (ks : List String) (l : String)
    (h : l ∈ ks) :
    (ks.map (fun k => (k, f k))).find? (fun p => (p.1 = l : Bool)) = some (l, f l) := by
  induction ks with
  | nil => cases h
  | cons a t ih =>
    by_cases ha : a = l
    · subst ha
      rw [List.map_cons, List.find?_cons_of_pos _ (by simp)]
    · have h' : l ∈ t := by
        rcases List.mem_cons.mp h with rfl | h'
        · exact absurd rfl ha
        · exact h'
      rw [List.map_cons, List.find?_cons_of_neg _ (by simp [ha])]
      exact ih h'

theorem assocFindD_map_key {M : Type} (f : String → M) (ks : List String) (l : String)
    (dflt : M) (h : l ∈ ks) :
    assocFindD (ks.map (fun k => (k, f k))) l dflt = f l := by
  unfold assocFindD
  rw [find_map_key f ks l h]

theorem filter_swap_snd {A B : Type} [DecidableEq B] (z : List (A × B)) (l : B) :
    ((z.map (fun p => (p.2, p.1))).filter (fun p => (p.1 = l : Bool))).map Prod.snd =
      (z.filter (fun p => (p.2 = l : Bool))).map Prod.fst := by
  induction z with
  | nil => rfl
  | cons a t ih =>
    by_cases h : a.2 = l <;> simp [h, ih]

theorem zip_map_snd {A B : Type} (data : List A) (lbls : List B)
    (h : data.length = lbls.length) : (data.zip lbls).map Prod.snd = lbls := by
  induction data generalizing lbls with
  | nil =>
    cases lbls with
    | nil => rfl
    | cons b t => simp at h
  | cons d dt ih =>
    cases lbls with
    | nil => simp at h
    | cons b bt =>
      simp only [List.zip_cons_cons, List.map_cons]
      rw [ih bt (by simpa using h)]

theorem membersOf_length (data : List (List ℚ)) (lbls : List String) (l : String)
    (hlen : data.length = lbls.length) :
    (membersOf data lbls l).length = lbls.count l := by
  unfold membersOf
  induction data generalizing lbls with
  | nil =>
    cases lbls with
    | nil => simp
    | cons b t => simp at hlen
  | cons d dt ih =>
    cases lbls with
    | nil => simp at hlen
    | cons b bt =>
      have hlen' : dt.length = bt.length := by simpa using hlen
      simp only [List.zip_cons_cons]
      by_cases h : b = l
      · subst h
        simp [List.count_cons, ih bt hlen']
      · simp [h, List.count_cons, ih bt hlen']

theorem vadd_zeros (v : List ℚ) (d : Nat) (h : v.length = d) :
    vadd (zerosVec d) v = v := by
  induction v generalizing d with
  | nil => subst h; rfl
  | cons a t ih =>
    subst h
    show vadd (zerosVec (t.length + 1)) (a :: t) = a :: t
    rw [zerosVec, List.replicate_succ]
    show (0 + a) :: List.zipWith (fun x y => x + y) (List.replicate t.length 0) t = a :: t
    rw [zero_add]
    show a :: vadd (zerosVec t.length) t = a :: t
    rw [ih t.length rfl]

/-- C7: `calculate_centroids` maps every label appearing in the
reference set to the element-wise arithmetic mean of the reference
vectors carrying that label; a label with a single member maps to exactly
that member.  Concretely, two points labelled "A" at (0,0) and (2,0)
yield the centroid (1,0) for "A", and a query at (1, 0.1) is assigned
"A" by nearest-centroid when "A" is the sole label. -/
theorem C7_centroids_are_means :
    (∀ (data : List (List ℚ)) (lbls : List String),
        data ≠ [] → data.length = lbls.length →
        (∀ v ∈ data, v.length = (data.headD []).length) →
        ∀ l c, (l, c) ∈ calculate_centroids data lbls →
          c = centroidMean (data.headD []).length (membersOf data lbls l) ∧
          (∀ v, membersOf data lbls l = [v] → c = v)) ∧
      calculate_centroids [[(0:ℚ),0],[2,0]] ["A","A"] = [("A", [1, 0])] ∧
      assign_labels_by_nearest_centroid [[(1:ℚ), 1/10]]
        (calculate_centroids [[(0:ℚ),0],[2,0]] ["A","A"]) = ["A"] := by
  refine ⟨?_, ?_, ?_⟩
  · intro data lbls hne hlen hdim l c hmem
    simp only [calculate_centroids] at hmem
    rw [counter_eq] at hmem
    obtain ⟨p, hp, hpe⟩ := List.mem_map.mp hmem
    obtain ⟨k0, hk0, rfl⟩ := List.mem_map.mp hp
    cases hpe
    have hk0' : k0 ∈ lbls := (mem_firstKeys _ _).mp hk0
    have hfst : ((data.zip lbls).map (fun p => (p.2, p.1))).map Prod.fst = lbls := by
      rw [List.map_map]
      exact zip_map_snd data lbls hlen
    have hlook : assocFindD
        (accKV vadd (fun v => vadd (zerosVec (data.headD []).length) v)
          ((data.zip lbls).map (fun p => (p.2, p.1))))
        k0 (zerosVec (data.headD []).length) =
        accVal vadd (fun v => vadd (zerosVec (data.headD []).length) v)
          (zerosVec (data.headD []).length) k0
          ((data.zip lbls).map (fun p => (p.2, p.1))) := by
      rw [accKV_eq vadd (fun v => vadd (zerosVec (data.headD []).length) v)
        (zerosVec (data.headD []).length), hfst]
      exact assocFindD_map_key _ (firstKeys lbls) k0 _ hk0
    have hmembers : (((data.zip lbls).map (fun p => (p.2, p.1))).filter
        (fun p => (p.1 = k0 : Bool))).map Prod.snd = membersOf data lbls k0 :=
      filter_swap_snd (data.zip lbls) k0
    have hm_ne : membersOf data lbls k0 ≠ [] := by
      intro hc0
      have hml := membersOf_length data lbls k0 hlen
      rw [hc0] at hml
      have := List.count_pos_iff.mpr hk0'
      simp at hml
      omega
    have haccval : accVal vadd (fun v => vadd (zerosVec (data.headD []).length) v)
        (zerosVec (data.headD []).length) k0
        ((data.zip lbls).map (fun p => (p.2, p.1))) =
        (membersOf data lbls k0).foldl vadd (zerosVec (data.headD []).length) := by
      unfold accVal
      rw [hmembers]
      rcases hmm : membersOf data lbls k0 with _ | ⟨v, vs⟩
      · exact absurd hmm hm_ne
      · rfl
    have hcnt : lbls.count k0 = (membersOf data lbls k0).length :=
      (membersOf_length data lbls k0 hlen).symm
    have hc : (assocFindD
        (accKV vadd (fun v => vadd (zerosVec (data.headD []).length) v)
          ((data.zip lbls).map (fun p => (p.2, p.1))))
        k0 (zerosVec (data.headD []).length)).map
          (fun x => x / ((lbls.count k0 : Nat) : ℚ)) =
        centroidMean (data.headD []).length (membersOf data lbls k0) := by
      rw [hlook, haccval, hcnt]
      rfl
    refine ⟨hc, ?_⟩
    intro v hv
    have hvdata : v ∈ data := by
      have hvm : v ∈ membersOf data lbls k0 := by rw [hv]; simp
      unfold membersOf at hvm
      obtain ⟨pq, hpq, rfl⟩ := List.mem_map.mp hvm
      obtain ⟨x, y⟩ := pq
      exact (List.of_mem_zip (List.mem_filter.mp hpq).1).1
    have hvd : v.length = (data.headD []).length := hdim v hvdata
    rw [hc, hv]
    show ([v].foldl vadd (zerosVec (data.headD []).length)).map
      (fun x => x / (([v].length : Nat) : ℚ)) = v
    simp only [List.foldl_cons, List.foldl_nil, List.length_cons, List.length_nil]
    rw [vadd_zeros v _ hvd]
    simp
  · norm_num +decide [calculate_centroids, counter, accKV, bumpKV, vadd, zerosVec,
      assocFindD, List.find?, accVal, List.zipWith, List.replicate]
  · norm_num +decide [assign_labels_by_nearest_centroid, nearestCentroidRow, pyMinBy,
      sqDist, calculate_centroids, counter, accKV, bumpKV, vadd, zerosVec, assocFindD,
      List.find?, List.zipWith, List.replicate]

/-- Witness for C7: its universally quantified part applied at the
concrete two-point reference set of the claim. -/
theorem C7_centroids_are_means_witness :
    [(1:ℚ), 0] = centroidMean 2 (membersOf [[(0:ℚ),0],[2,0]] ["A","A"] "A") ∧
      (∀ v, membersOf [[(0:ℚ),0],[2,0]] ["A","A"] "A" = [v] → [(1:ℚ), 0] = v) := by
  have h := C7_centroids_are_means.1 [[(0:ℚ),0],[2,0]] ["A","A"] (by simp) (by simp)
    (by intro v hv; fin_cases hv <;> rfl) "A" [(1:ℚ), 0]
    (by rw [C7_centroids_are_means.2.1]; simp)
  exact h

/-! ## Category-mapping lemmas (claim C9) -/

theorem find_map_update (a : List (String × String)) (x cat l : String) :
    (a.map (fun p => if p.1 = x then (p.1, cat) else p)).find? (fun p => (p.1 = l : Bool)) =
      (a.find? (fun p => (p.1 = l : Bool))).map (fun p => if p.1 = x then (p.1, cat) else p) := by
  induction a with
  | nil => rfl
  | cons q t ih =>
    have hkey : (if q.1 = x then (q.1, cat) else q).1 = q.1 := by
      split <;> rfl
    by_cases hq : q.1 = l
    · rw [List.map_cons, List.find?_cons_of_pos _ (by rw [hkey]; simp [hq]),
        List.find?_cons_of_pos _ (by simp [hq])]
      rfl
    · rw [List.map_cons, List.find?_cons_of_neg _ (by rw [hkey]; simp [hq]),
        List.find?_cons_of_neg _ (by simp [hq])]
      exact ih

theorem find_dictSet (a : List (String × String)) (x cat l : String) :
    (dictSet a x cat).find? (fun p => (p.1 = l : Bool)) =
      if x = l then some (l, cat) else a.find? (fun p => (p.1 = l : Bool)) := by
  unfold dictSet
  by_cases hx : a.any (fun p => (p.1 = x : Bool))
  · rw [if_pos hx, find_map_update]
    by_cases hxl : x = l
    · subst hxl
      rw [if_pos rfl]
      obtain ⟨q, hq, hq1⟩ := List.any_eq_true.mp hx
      have hq1' : q.1 = x := by simpa using hq1
      have hsome : (a.find? (fun p => (p.1 = x : Bool))).isSome := by
        rw [List.find?_isSome]
        exact ⟨q, hq, by simp [hq1']⟩
      obtain ⟨q0, hq0⟩ := Option.isSome_iff_exists.mp hsome
      have hq01 : q0.1 = x := by
        have := List.find?_some hq0
        simpa using this
      rw [hq0]
      simp [hq01]
    · rw [if_neg hxl]
      cases hf : a.find? (fun p => (p.1 = l : Bool)) with
      | none => rfl
      | some q0 =>
        have hq01 : q0.1 = l := by
          have := List.find?_some hf
          simpa using this
        have : q0.1 ≠ x := by rw [hq01]; exact fun he => hxl he.symm
        simp [this]
  · rw [if_neg hx]
    have hnone : a.find? (fun p => (p.1 = x : Bool)) = none := by
      rw [List.find?_eq_none]
      intro q hq
      intro hq1
      exact hx (List.any_eq_true.mpr ⟨q, hq, hq1⟩)
    by_cases hxl : x = l
    · subst hxl
      rw [if_pos rfl, List.find?_append, hnone]
      simp [List.find?]
    · rw [if_neg hxl, List.find?_append]
      have h2 : ([(x, cat)] : List (String × String)).find? (fun p => (p.1 = l : Bool)) = none := by
        simp [List.find?, hxl]
      rw [h2]
      cases a.find? (fun p => (p.1 = l : Bool)) <;> rfl

theorem find_fold_dictSet (ls : List String) (cat : String) :
    ∀ (acc : List (String × String)) (l : String),
      ((ls.foldl (fun a x => dictSet a x cat) acc).find? (fun p => (p.1 = l : Bool))) =
        if l ∈ ls then some (l, cat) else acc.find? (fun p => (p.1 = l : Bool)) := by
  induction ls with
  | nil => intro acc l; simp
  | cons x t ih =>
    intro acc l
    simp only [List.foldl_cons]
    rw [ih]
    by_cases hl : l ∈ t
    · rw [if_pos hl, if_pos (List.mem_cons.mpr (Or.inr hl))]
    · rw [if_neg hl, find_dictSet]
      by_cases hxl : x = l
      · subst hxl
        rw [if_pos rfl, if_pos (List.mem_cons.mpr (Or.inl rfl))]
      · have hnm : l ∉ x :: t := by
          rw [List.mem_cons]
          rintro (rfl | h)
          · exact hxl rfl
          · exact hl h
        rw [if_neg hxl, if_neg hnm]

theorem build_lookup (d : List (String × List String)) :
    ∀ (acc : List (String × String)) (l : String),
      ((d.foldl (fun acc p => p.2.foldl (fun a x => dictSet a x p.1) acc) acc).find?
          (fun q => (q.1 = l : Bool))) =
        d.foldl (fun r p => if l ∈ p.2 then some (l, p.1) else r)
          (acc.find? (fun q => (q.1 = l : Bool))) := by
  induction d with
  | nil => intro acc l; rfl
  | cons p rest ih =>
    intro acc l
    simp only [List.foldl_cons]
    rw [ih, find_fold_dictSet]

theorem fold_no_update (rest : List (String × List String)) (l : String)
    (h : ∀ q ∈ rest, l ∉ q.2) (r : Option (String × String)) :
    rest.foldl (fun r p => if l ∈ p.2 then some (l, p.1) else r) r = r := by
  induction rest generalizing r with
  | nil => rfl
  | cons p t ih =>
    simp only [List.foldl_cons]
    rw [if_neg (h p (List.mem_cons.mpr (Or.inl rfl)))]
    exact ih (fun q hq => h q (List.mem_cons.mpr (Or.inr hq))) r

theorem lastCat_eq_find (d : List (String × List String)) (l : String)
    (hd : d.Pairwise (fun p q => ∀ x ∈ p.2, x ∉ q.2)) :
    d.foldl (fun r p => if l ∈ p.2 then some (l, p.1) else r) none =
      (d.find? (fun p => (l ∈ p.2 : Bool))).map (fun p => (l, p.1)) := by
  induction d with
  | nil => rfl
  | cons p rest ih =>
    rw [List.pairwise_cons] at hd
    simp only [List.foldl_cons]
    by_cases hp : l ∈ p.2
    · rw [if_pos hp, List.find?_cons_of_pos _ (by simpa using hp)]
      rw [fold_no_update rest l (fun q hq => hd.1 q hq l hp) (some (l, p.1))]
      rfl
    · rw [if_neg hp, List.find?_cons_of_neg _ (by simpa using hp)]
      exact ih hd.2

/-- C9: for every label list and category dictionary in which each label
belongs to at most one category, `map_labels_to_categories` returns one
category per input label in input order — the category whose value list
contains the label, and the sentinel "unknown" for a label found in no
category; concretely, `label_dict = [("Immune", ["B","T"])]` and
`label_list = ["T","B","NK"]` yield `["Immune","Immune","unknown"]`. -/
theorem C9_map_labels_to_categories :
    (∀ (label_list : List String) (label_dict : List (String × List String)),
        label_dict.Pairwise (fun p q => ∀ x ∈ p.2, x ∉ q.2) →
        map_labels_to_categories label_list label_dict =
          label_list.map (specCategoryOf label_dict)) ∧
      map_labels_to_categories ["T","B","NK"] [("Immune", ["B","T"])] =
        ["Immune","Immune","unknown"] := by
  constructor
  · intro ll d hd
    unfold map_labels_to_categories
    apply List.map_congr_left
    intro l _
    unfold assocFindD
    rw [build_lookup d [] l]
    rw [show (([] : List (String × String)).find? (fun q => (q.1 = l : Bool))) = none from rfl]
    rw [lastCat_eq_find d l hd]
    unfold specCategoryOf
    cases h : d.find? (fun p => (l ∈ p.2 : Bool)) <;> simp [h]
  · decide

/-- Witness for C9 at a concrete input with a label found in no
category. -/
theorem C9_map_labels_to_categories_witness :
    map_labels_to_categories ["X","Y"] [("C", ["X"])] =
      (["X","Y"] : List String).map (specCategoryOf [("C", ["X"])]) :=
  C9_map_labels_to_categories.1 ["X","Y"] [("C", ["X"])] (by simp)

end SCFL
